import Mathlib

/-!
Verification development for the Purlovia core: asset-name canonicalization,
mod-id resolution, the lazy-loading asset cache, the chunked-compression
container decoder, the ACF key-value text parser and the length-prefixed
string reader.

Strings are modelled as `List Char`, byte streams as `List Nat` (one entry
per byte), machine integers as `Nat`.  Fallible code returns `Except`/`Option`.
-/

namespace Purlovia

/-! ## Byte-stream primitives

Modelled from the spec: `ue/stream.py` (`MemoryStream`) is not part of the
given sources; per the spec the container header uses fixed-width
little-endian integers ("fixed-width integers, fields in order") and the
string reader "reads an unsigned 32-bit length".  Reading past the end of
the stream is an error (`none`). -/

/-- Little-endian value of a byte list. -/
def leVal (bs : List Nat) : Nat := bs.foldr (fun b acc => b + 256 * acc) 0

/-- Take exactly `n` bytes off the front of a stream, or fail. -/
def splitBytes? (n : Nat) (s : List Nat) : Option (List Nat × List Nat) :=
  if n ≤ s.length then some (s.take n, s.drop n) else none

/-- Modelled from the spec: `MemoryStream.readUInt64` — 8 bytes, little-endian, unsigned. -/
def readUInt64? (s : List Nat) : Option (Nat × List Nat) :=
  match splitBytes? 8 s with
  | none => none
  | some (bs, rest) => some (leVal bs, rest)

/-- Modelled from the spec: `MemoryStream.readUInt32` — 4 bytes, little-endian, unsigned. -/
def readUInt32? (s : List Nat) : Option (Nat × List Nat) :=
  match splitBytes? 4 s with
  | none => none
  | some (bs, rest) => some (leVal bs, rest)

/-- The 8 little-endian bytes of `n % 2^64`. -/
def u64le (n : Nat) : List Nat :=
  [n % 256, n / 256 % 256, n / 65536 % 256, n / 16777216 % 256,
   n / 4294967296 % 256, n / 1099511627776 % 256,
   n / 281474976710656 % 256, n / 72057594037927936 % 256]

/-! ## BinaryContainerDecoder — `unpackModFile` (automate/modutils.py) -/

/-- The failure modes of `unpackModFile`.  In the Python source every check is
an `assert cond, DecompressionError(...)`; all of them abort the unpack. -/
inductive UnpackError where
  | outOfData
  | invalidHeader
  | invalidChunkSizes
  | decompressFailed
  | chunkVerifyFailed
  | chunkWrongSize
deriving DecidableEq

/-- The magic token of the compressed container format. -/
def MAGIC : Nat := 0x9e2a83c1

/-- The descriptor-table loop of `unpackModFile`:
`while sizeFound < sizeUnpacked: read (compressed, uncompressed) pair`.
The Python loop is bounded by the stream running dry (a read past the end
raises); the `fuel` argument only reproduces that bound: every iteration
consumes 16 bytes, so starting with `fuel = s.length + 1` the fuel can
never run out before the data does. -/
def readChunkSizesFuel (total : Nat) :
    Nat → Nat → List (Nat × Nat) → List Nat →
      Except UnpackError (List (Nat × Nat) × Nat × List Nat)
  | 0, found, acc, s =>
    if found < total then .error .outOfData else .ok (acc, found, s)
  | fuel + 1, found, acc, s =>
    if found < total then
      match readUInt64? s with
      | none => .error .outOfData
      | some (c, s1) =>
        match readUInt64? s1 with
        | none => .error .outOfData
        | some (u, s2) => readChunkSizesFuel total fuel (found + u) (acc ++ [(c, u)]) s2
    else .ok (acc, found, s)

/-- The per-chunk decode loop of `unpackModFile`: read the declared number of
compressed bytes, decompress, check the output length against the
descriptor, and against the nominal chunk size for every chunk but the
last.  `decompress` abstracts `zlib.decompress` (`none` = `zlib.error`). -/
def processChunks (decompress : List Nat → Option (List Nat)) (nominal : Nat) :
    List (Nat × Nat) → List Nat → Except UnpackError (List Nat)
  | [], _ => .ok []
  | (c, u) :: rest, s =>
    match splitBytes? c s with
    | none => .error .outOfData
    | some (chunk, s1) =>
      match decompress chunk with
      | none => .error .decompressFailed
      | some out =>
        if out.length ≠ u then .error .chunkVerifyFailed
        else if out.length ≠ nominal ∧ rest ≠ [] then .error .chunkWrongSize
        else
          match processChunks decompress nominal rest s1 with
          | .error e => .error e
          | .ok tail => .ok (out ++ tail)

/-- `unpackModFile` (automate/modutils.py, lines 33-63).  The returned byte
list is the concatenation of the decompressed chunks in order (the bytes the
Python code writes to `dst`); an `Except.error` is a raised exception and
produces no output value. -/
def unpackModFile (decompress : List Nat → Option (List Nat)) (src : List Nat) :
    Except UnpackError (List Nat) :=
  match readUInt64? src with
  | none => .error .outOfData
  | some (token, s1) =>
    match readUInt64? s1 with
    | none => .error .outOfData
    | some (sizeUnpackedChunk, s2) =>
      match readUInt64? s2 with
      | none => .error .outOfData
      | some (_sizePacked, s3) =>
        match readUInt64? s3 with
        | none => .error .outOfData
        | some (sizeUnpacked, s4) =>
          if token ≠ MAGIC then .error .invalidHeader
          else
            match readChunkSizesFuel sizeUnpacked (s4.length + 1) 0 [] s4 with
            | .error e => .error e
            | .ok (chunkSizes, sizeFound, s5) =>
              if sizeFound ≠ sizeUnpacked then .error .invalidChunkSizes
              else processChunks decompress sizeUnpackedChunk chunkSizes s5

/-- Encoding of a descriptor table, 16 bytes per (compressed, uncompressed) pair. -/
def encDescrs : List (Nat × Nat) → List Nat
  | [] => []
  | (c, u) :: ds => u64le c ++ (u64le u ++ encDescrs ds)

/-- Sum of the declared uncompressed sizes of a descriptor list. -/
def sumU (ds : List (Nat × Nat)) : Nat := ds.foldr (fun d a => d.2 + a) 0

/-! ## String utilities (Python `str` methods on `List Char`) -/

/-- The whitespace characters stripped by Python's `str.strip()`. -/
def wsChar (c : Char) : Bool :=
  c = ' ' || c = '\t' || c = '\n' || c = '\r' || c = '\x0b' || c = '\x0c'

/-- Drop the longest suffix whose characters satisfy `p`. -/
def dropEndWhile (p : Char → Bool) (l : List Char) : List Char :=
  (l.reverse.dropWhile p).reverse

/-- Python `str.strip` with a character class: drop matching characters from
both ends. -/
def pyStrip (p : Char → Bool) (l : List Char) : List Char :=
  dropEndWhile p (l.dropWhile p)

/-- `name[:name.index('.')] if '.' in name else name`. -/
def truncDot (l : List Char) : List Char := l.takeWhile (fun c => c != '.')

/-- Python `str.split(sep)` for a one-character separator. -/
def splitChar (sep : Char) : List Char → List (List Char)
  | [] => [[]]
  | c :: rest =>
    let ps := splitChar sep rest
    if c = sep then [] :: ps
    else
      match ps with
      | [] => [[c]]
      | p :: ps' => (c :: p) :: ps'

/-- Python `sep.join(parts)` for a one-character separator. -/
def joinChar (sep : Char) : List (List Char) → List Char
  | [] => []
  | [p] => p
  | p :: ps => p ++ sep :: joinChar sep ps

/-- Python `str.lower()` (ASCII). -/
def lowerList (l : List Char) : List Char := l.map Char.toLower

/-- Python `str.isnumeric()` (ASCII digits). -/
def isNumericSeg (l : List Char) : Bool := !l.isEmpty && l.all Char.isDigit

/-- Association-list model of a Python `dict` lookup (`d.get(k, None)`). -/
def dictLookup {α : Type} : List (List Char × α) → List Char → Option α
  | [], _ => none
  | (k, v) :: rest, n => if k = n then some v else dictLookup rest n

/-- Association-list model of Python `d[k] = v`: overwrite in place or append. -/
def dictAdd {α : Type} : List (List Char × α) → List Char → α → List (List Char × α)
  | [], k, v => [(k, v)]
  | (k', v') :: rest, k, v =>
    if k' = k then (k', v) :: rest else (k', v') :: dictAdd rest k v

/-- Association-list model of Python `del d[k]`: `none` is a raised `KeyError`. -/
def dictRemove {α : Type} : List (List Char × α) → List Char → Option (List (List Char × α))
  | [], _ => none
  | (k', v') :: rest, k =>
    if k' = k then some rest else (dictRemove rest k).map (fun r => (k', v') :: r)

/-! ## NameResolver variants -/

/-- Errors raised by the resolver variants. -/
inductive ResolveErr where
  | modNotFound
  | keyError
deriving DecidableEq

namespace IniModResolver

/-- `IniModResolver.get_name_from_id` (ue/loader.py, lines 113-115):
`self.mods_id_to_names.get(modid, None)` — an unregistered id yields `None`. -/
def get_name_from_id (mods_id_to_names : List (List Char × List Char))
    (modid : List Char) : Option (List Char) :=
  dictLookup mods_id_to_names modid

/-- `IniModResolver.get_id_from_name` (ue/loader.py, lines 117-119):
`self.mods_names_to_ids.get(name.lower(), None)` — the table is keyed by
lowercased names; an unregistered name yields `None` (no exception). -/
def get_id_from_name (mods_names_to_ids : List (List Char × List Char))
    (name : List Char) : Option (List Char) :=
  dictLookup mods_names_to_ids (lowerList name)

end IniModResolver

namespace ManagedModResolver

/-- `ManagedModResolver.get_name_from_id` (automate/ark.py, lines 323-327):
an unregistered id is returned unchanged.  `dataCache` is modelled as the
id ↦ `data['name']` table. -/
def get_name_from_id (dataCache : List (List Char × List Char))
    (modid : List Char) : List Char :=
  match dictLookup dataCache modid with
  | none => modid
  | some nm => nm

/-- `ManagedModResolver.get_id_from_name` (automate/ark.py, lines 329-333):
lowercased lookup; `if not modid: raise ModNotFound(name)` — both a missing
key and an empty stored id raise. -/
def get_id_from_name (modNameToIds : List (List Char × List Char))
    (name : List Char) : Except ResolveErr (List Char) :=
  match dictLookup modNameToIds (lowerList name) with
  | none => .error .modNotFound
  | some modid => if modid = [] then .error .modNotFound else .ok modid

end ManagedModResolver

namespace FixedModResolver

/-- `FixedModResolver.get_name_from_id` (automate/ark.py, lines 349-350):
`self.idsToNames[modid]` — an unregistered id raises `KeyError`. -/
def get_name_from_id (idsToNames : List (List Char × List Char))
    (modid : List Char) : Except ResolveErr (List Char) :=
  match dictLookup idsToNames modid with
  | none => .error .keyError
  | some nm => .ok nm

/-- `FixedModResolver.get_id_from_name` (automate/ark.py, lines 346-347):
`self.namesToIds[name]` — exact-case lookup, `KeyError` when absent. -/
def get_id_from_name (namesToIds : List (List Char × List Char))
    (name : List Char) : Except ResolveErr (List Char) :=
  match dictLookup namesToIds name with
  | none => .error .keyError
  | some v => .ok v

end FixedModResolver

/-! ## PathCanonicalizer — `AssetLoader.clean_asset_name` (ue/loader.py 130-152) -/

/-- The map applied by `name.replace('\\', '/')`. -/
def slashize (c : Char) : Char := if c = '\\' then '/' else c

/-- `name.strip().strip('/').strip('\\').replace('\\', '/')`, after the
class-suffix truncation. -/
def normalizeRaw (name : List Char) : List Char :=
  ((pyStrip (fun c => c = '\\')
      (pyStrip (fun c => c = '/') (pyStrip wsChar (truncDot name)))).map slashize)

/-- Lines 139-142 of ue/loader.py: `if len(parts) > 2 and parts[1].lower()
== 'mods' and parts[2].isnumeric(): parts[2] = get_name_from_id(parts[2])`.
`resolve` abstracts `get_name_from_id`, which returns `Optional[str]`;
Python stores its result into `parts[2]` unconditionally, so a `None`
result makes the later `'/'.join(parts)` raise `TypeError` — modelled as
`none`. -/
def modsStep (resolve : List Char → Option (List Char))
    (parts : List (List Char)) : Option (List (List Char)) :=
  match parts with
  | p0 :: p1 :: p2 :: rest =>
    if lowerList p1 = "mods".toList ∧ isNumericSeg p2 = true then
      match resolve p2 with
      | none => none
      | some nm => some (p0 :: p1 :: nm :: rest)
    else some (p0 :: p1 :: p2 :: rest)
  | ps => some ps

/-- Lines 145-146 of ue/loader.py: `if parts and parts[0].lower() ==
'content': parts[0] = 'Game'`. -/
def contentStep (ps : List (List Char)) : List (List Char) :=
  match ps with
  | p0 :: rest =>
    if lowerList p0 = "content".toList then "Game".toList :: rest else p0 :: rest
  | [] => []

/-- `AssetLoader.clean_asset_name` (ue/loader.py, lines 130-152): drop the
class suffix, strip and unify separators, split, resolve a numeric mod
segment, rewrite a leading `content` to `Game`, and rejoin behind a leading
slash. -/
def clean_asset_name (resolve : List Char → Option (List Char))
    (name : List Char) : Option (List Char) :=
  match modsStep resolve (splitChar '/' (normalizeRaw name)) with
  | none => none
  | some ps => some ('/' :: joinChar '/' (contentStep ps))

/-- Characters a well-formed asset-path segment is made of. -/
def safeChar (c : Char) : Bool := c.isAlphanum || c = '_' || c = '-'

/-- A well-formed path segment: nonempty, made of safe characters. -/
def validSeg (l : List Char) : Bool := !l.isEmpty && l.all safeChar

/-- A valid raw asset name: after dropping the class suffix and the outer
separators and unifying slashes, every path segment is a nonempty run of
alphanumeric / `_` / `-` characters. -/
def validRawName (name : List Char) : Bool :=
  (splitChar '/' (normalizeRaw name)).all validSeg

/-- A well-behaved `get_name_from_id`: any alias it returns is a valid,
non-numeric path segment (the spec's mod aliases are exactly that). -/
def goodResolver (resolve : List Char → Option (List Char)) : Prop :=
  ∀ i nm, resolve i = some nm → validSeg nm = true ∧ isNumericSeg nm = false

/-! ## AssetCache — `DictCacheManager` (ue/loader.py 78-96) -/

/-- `DictCacheManager.wipe` (ue/loader.py, lines 91-96): an empty prefix
clears the whole dict, otherwise every key starting with the prefix is
deleted. -/
def wipe {α : Type} (pre : List Char) (c : List (List Char × α)) :
    List (List Char × α) :=
  if pre = [] then [] else c.filter (fun kv => !(pre.isPrefixOf kv.1))

/-! ## AssetLoader — load / cache state machine (ue/loader.py 292-329)

A parsed asset (`UAsset`, defined in the out-of-scope `ue/asset.py`) is
opaque here: only the attributes `_load_asset` sets are modelled, plus a
`uid` tag so that two loads of the same file are distinguishable values —
`uid` is the read counter at creation time, which is unique because every
creation increments it.  Disk I/O and the deserialise/link steps are
abstracted by `env`, which says for each asset name how far a load of it
gets. -/

/-- How far a load of a given name can proceed: no file on disk, failure
inside `deserialise()`, failure inside `link()`, or full success. -/
inductive LoadOutcome where
  | notFound
  | deserFail
  | linkFail
  | ok
deriving DecidableEq

/-- The attributes of a parsed asset that `_load_asset` sets. -/
structure UAsset where
  assetname : List Char
  name : List Char
  linked : Bool
  defaultIdentified : Bool
  uid : Nat
deriving DecidableEq

/-- Loader state: the cache dict plus a count of underlying file reads. -/
structure LoaderState where
  cache : List (List Char × UAsset)
  readCount : Nat
deriving DecidableEq

/-- Errors the loader can raise. -/
inductive LoadErr where
  | assetNotFound
  | corrupt
  | cleanFailed
  | keyError
deriving DecidableEq

/-- `AssetLoader._load_asset` (ue/loader.py, lines 307-329).  The raw file
read bumps `readCount`; a missing file raises before any read; with
`doNotLink` the function returns right after `deserialise()`; otherwise it
links, identifies the default export and caches the asset as its last step.
The returned state carries whatever mutations happened before a raise. -/
def load_asset (env : List Char → LoadOutcome) (doNotLink : Bool)
    (assetname : List Char) (s : LoaderState) :
    Except LoadErr UAsset × LoaderState :=
  match env assetname with
  | .notFound => (.error .assetNotFound, s)
  | .deserFail => (.error .corrupt, { s with readCount := s.readCount + 1 })
  | .linkFail =>
    if doNotLink then
      (.ok { assetname := assetname, name := (splitChar '/' assetname).getLastD [],
             linked := false, defaultIdentified := false, uid := s.readCount },
       { s with readCount := s.readCount + 1 })
    else (.error .corrupt, { s with readCount := s.readCount + 1 })
  | .ok =>
    if doNotLink then
      (.ok { assetname := assetname, name := (splitChar '/' assetname).getLastD [],
             linked := false, defaultIdentified := false, uid := s.readCount },
       { s with readCount := s.readCount + 1 })
    else
      let a : UAsset :=
        { assetname := assetname, name := (splitChar '/' assetname).getLastD [],
          linked := true, defaultIdentified := true, uid := s.readCount }
      (.ok a, { cache := dictAdd s.cache assetname a, readCount := s.readCount + 1 })

/-- `AssetLoader.partially_load_asset` (ue/loader.py, lines 303-305): a
shallow load — `_load_asset` with `doNotLink=True` (note: no name cleaning). -/
def partialLoadAsset (env : List Char → LoadOutcome) (assetname : List Char)
    (s : LoaderState) : Except LoadErr UAsset × LoaderState :=
  load_asset env true assetname s

/-- `AssetLoader.__getitem__` (ue/loader.py, lines 292-296): clean the name,
serve from the cache, or do a full load on a miss. -/
def getItem (env : List Char → LoadOutcome)
    (resolve : List Char → Option (List Char)) (assetname : List Char)
    (s : LoaderState) : Except LoadErr UAsset × LoaderState :=
  match clean_asset_name resolve assetname with
  | none => (.error .cleanFailed, s)
  | some n =>
    match dictLookup s.cache n with
    | some a => (.ok a, s)
    | none => load_asset env false n s

/-- `AssetLoader.__delitem__` (ue/loader.py, lines 298-301): clean the name
and `del` it from the cache dict (`KeyError` when absent). -/
def delItem (resolve : List Char → Option (List Char)) (assetname : List Char)
    (s : LoaderState) : Except LoadErr Unit × LoaderState :=
  match clean_asset_name resolve assetname with
  | none => (.error .cleanFailed, s)
  | some n =>
    match dictRemove s.cache n with
    | none => (.error .keyError, s)
    | some c => (.ok (), { s with cache := c })

/-! ## BinaryStringReader — `readUnrealString` (automate/modutils.py 124-132) -/

/-- Errors of `readUnrealString`: reading past the stream end, and the
`ValueError("UTF16 string detected - add support here!")` branch. -/
inductive ReadStrErr where
  | outOfData
  | wideText
deriving DecidableEq

/-- `readUnrealString`.  `count` comes from the unsigned 32-bit read, so the
Python guard `if count < 0` is kept verbatim on `Nat` — it can never fire.
The decoded string is modelled as its byte list; `data.decode('utf8')[:-1]`
drops the final character, which for the single-byte text this reader
handles is the final byte. -/
def readUnrealString (s : List Nat) :
    Except ReadStrErr (Option (List Nat) × List Nat) :=
  match readUInt32? s with
  | none => .error .outOfData
  | some (count, s1) =>
    if count < 0 then .error .wideText
    else if count = 0 then .ok (none, s1)
    else
      match splitBytes? count s1 with
      | none => .error .outOfData
      | some (data, s2) => .ok (some data.dropLast, s2)

/-- `true` exactly when the result is the raised wide-text `ValueError`. -/
def isWideTextError (r : Except ReadStrErr (Option (List Nat) × List Nat)) : Bool :=
  match r with
  | .error .wideText => true
  | _ => false

/-! ## KeyValueTextParser — `parseAcf` (automate/modutils.py 73-105) -/

/-- A value in the parsed ACF tree: a string entry or a nested section. -/
inductive AcfValue : Type where
  | str : List Char → AcfValue
  | sect : List (List Char × AcfValue) → AcfValue

/-- `line.replace('"', '')`. -/
def stripQuotes (l : List Char) : List Char := l.filter (fun c => c != '"')

/-- Python `line.split(None, 1)` restricted to the two-token success case:
`some (key, rest)` when the line has at least two whitespace-separated
tokens, `none` when `key, value = ...` raises `ValueError`. -/
def pySplit2 (l : List Char) : Option (List Char × List Char) :=
  let l1 := l.dropWhile wsChar
  let k := l1.takeWhile (fun c => !wsChar c)
  let r := (l1.dropWhile (fun c => !wsChar c)).dropWhile wsChar
  if k = [] then none
  else if r = [] then none
  else some (k, r)

/-- Overwrite-or-append on an ACF section, i.e. Python `d[k] = v`. -/
def acfSet (d : List (List Char × AcfValue)) (key : List Char) (v : AcfValue) :
    List (List Char × AcfValue) :=
  match d with
  | [] => [(key, v)]
  | (k, w) :: rest => if k = key then (k, v) :: rest else (k, w) :: acfSet rest key v

/-- Set `key ↦ v` in the section reached by following `path` from `d`;
`none` models the `KeyError`/`TypeError` Python raises when the path walks
through a missing key or a plain string entry. -/
def setAtPath (d : List (List Char × AcfValue)) :
    List (List Char) → List Char → AcfValue → Option (List (List Char × AcfValue))
  | [], key, v => some (acfSet d key v)
  | p :: ps, key, v =>
    match dictLookup d p with
    | some (AcfValue.sect sub) =>
      match setAtPath sub ps key v with
      | some sub' => some (acfSet d p (AcfValue.sect sub'))
      | none => none
    | _ => none

/-- The `{` handler: `current = output; for i in sections[:-1]: current =
current[i]; current[sections[-1]] = outputType()` — `none` models the
`IndexError` on empty `sections` and the navigation errors. -/
def openSection (d : List (List Char × AcfValue)) (sections : List (List Char)) :
    Option (List (List Char × AcfValue)) :=
  match sections.getLast? with
  | none => none
  | some lastName => setAtPath d sections.dropLast lastName (AcfValue.sect [])

/-- Parser state.  Python's `current_section` variable is an alias into the
output tree; it is only ever (re)assigned at a `{` line, at which moment it
aliases the node at path `sections` — so it is modelled by that path,
`csPath`.  A `}` line pops `sections` but leaves `current_section`, hence
`csPath`, untouched. -/
structure AcfSt where
  output : List (List Char × AcfValue)
  csPath : List (List Char)
  sections : List (List Char)

/-- Errors raised inside `parseAcf` (stack underflow on `}`, navigation
through a missing or non-section node). -/
inductive AcfErr where
  | corruptSection
deriving DecidableEq

/-- One iteration of the `parseAcf` line loop.  `ok none` is the `break` on
a blank line. -/
def acfLine (st : AcfSt) (line : List Char) : Except AcfErr (Option AcfSt) :=
  if line = [] then .ok none
  else
    let sline := pyStrip wsChar line
    match pySplit2 sline with
    | some (k0, v0) =>
      let key := (stripQuotes k0).dropWhile wsChar
      let value := dropEndWhile wsChar (stripQuotes v0)
      match setAtPath st.output st.csPath key (AcfValue.str value) with
      | some out' => .ok (some ⟨out', st.csPath, st.sections⟩)
      | none => .error .corruptSection
    | none =>
      if sline = ['\x7b'] then
        match openSection st.output st.sections with
        | some out' => .ok (some ⟨out', st.sections, st.sections⟩)
        | none => .error .corruptSection
      else if sline = ['\x7d'] then
        match st.sections with
        | [] => .error .corruptSection
        | _ :: _ => .ok (some ⟨st.output, st.csPath, st.sections.dropLast⟩)
      else
        .ok (some ⟨st.output, st.csPath, st.sections ++ [stripQuotes sline]⟩)

/-- The `for line in data.splitlines()` loop of `parseAcf`. -/
def parseAcfLoop : AcfSt → List (List Char) → Except AcfErr (List (List Char × AcfValue))
  | st, [] => .ok st.output
  | st, l :: ls =>
    match acfLine st l with
    | .error e => .error e
    | .ok none => .ok st.output
    | .ok (some st') => parseAcfLoop st' ls

/-- Python `str.splitlines()` restricted to `'\n'` separators. -/
def pySplitlines (l : List Char) : List (List Char) :=
  if l = [] then []
  else
    let ps := splitChar '\n' l
    if l.getLast? = some '\n' then ps.dropLast else ps

/-- `parseAcf` (automate/modutils.py, lines 73-105), with `outputType=dict`
modelled as an ordered association list. -/
def parseAcf (data : List Char) : Except AcfErr (List (List Char × AcfValue)) :=
  parseAcfLoop ⟨[], [], []⟩ (pySplitlines data)

/-! ## Auxiliary predicates and concrete inputs used by the theorems -/

/-- The invariant of the loader cache: every entry is fully linked with its
default object identified. -/
def goodCache (c : List (List Char × UAsset)) : Prop :=
  ∀ k a, dictLookup c k = some a → a.linked = true ∧ a.defaultIdentified = true

/-- A resolver whose table is empty (`mods.ini` with no `[ids]` entries). -/
def resolveNone : List Char → Option (List Char) := fun _ => none

/-- An environment in which every asset file exists and loads cleanly. -/
def envAllOk : List Char → LoadOutcome := fun _ => .ok

/-- An environment with no asset files on disk. -/
def envMissing : List Char → LoadOutcome := fun _ => .notFound

/-- A stand-in decompressor: prepends nothing, maps each byte up by one. -/
def decompIncr : List Nat → Option (List Nat) := fun l => some (l.map (· + 1))

/-- The brace-nesting example document: a key-value entry `"C" "3"` follows
the `}` that closes the `Child` section. -/
def acfDocC : List Char :=
  ("\"Root\"\n\x7b\n\"A\" \"1\"\n\"Child\"\n\x7b\n\"B\" \"2\"\n\x7d\n\"C\" \"3\"\n\x7d\n").toList

/-- The contents `parseAcf` actually produces for the `Child` section of
`acfDocC`. -/
def acfChildActual : List (List Char × AcfValue) :=
  [("B".toList, .str "2".toList), ("C".toList, .str "3".toList)]

/-- The contents `parseAcf` actually produces for the `Root` section of
`acfDocC`. -/
def acfRootActual : List (List Char × AcfValue) :=
  [("A".toList, .str "1".toList), ("Child".toList, .sect acfChildActual)]

/-! ## Association-list lemmas -/

theorem dictLookup_dictAdd {α : Type} (c : List (List Char × α)) (k k' : List Char) (v : α) :
    dictLookup (dictAdd c k v) k' = if k = k' then some v else dictLookup c k' := by
  induction c with
  | nil => by_cases h : k = k' <;> simp [dictAdd, dictLookup, h]
  | cons kv rest ih =>
    obtain ⟨k0, v0⟩ := kv
    by_cases h0 : k0 = k
    · subst h0
      by_cases h : k0 = k' <;> simp [dictAdd, dictLookup, h]
    · by_cases h : k0 = k'
      · subst h
        have hkk : ¬k = k0 := fun he => h0 he.symm
        simp [dictAdd, dictLookup, h0, hkk]
      · simp [dictAdd, dictLookup, h0, h, ih]

theorem dictRemove_none_iff {α : Type} (c : List (List Char × α)) (k : List Char) :
    dictRemove c k = none ↔ dictLookup c k = none := by
  induction c with
  | nil => simp [dictRemove, dictLookup]
  | cons kv rest ih =>
    obtain ⟨k0, v0⟩ := kv
    by_cases h0 : k0 = k
    · simp [dictRemove, dictLookup, h0]
    · simp only [dictRemove, dictLookup, if_neg h0]
      cases hr : dictRemove rest k <;> simp_all

/-! ## C9 — prefix wipe -/

/-- C9: for every cache state and prefix `p`, after `wipe p` every name
starting with `p` looks up to nothing, every other name is untouched, and
`wipe ""` removes every entry. -/
theorem wipe_prefix_spec {α : Type} (p n : List Char) (c : List (List Char × α)) :
    (p.isPrefixOf n = true → dictLookup (wipe p c) n = none)
    ∧ (p.isPrefixOf n = false → dictLookup (wipe p c) n = dictLookup c n)
    ∧ wipe ([] : List Char) c = [] := by
  refine ⟨?_, ?_, by simp [wipe]⟩
  · intro hp
    by_cases hp0 : p = []
    · subst hp0; simp [wipe, dictLookup]
    · simp only [wipe, if_neg hp0]
      induction c with
      | nil => simp [dictLookup]
      | cons kv rest ih =>
        obtain ⟨k, v⟩ := kv
        by_cases hk : k = n
        · subst hk
          simp [List.filter_cons, hp, ih]
        · by_cases hkeep : p.isPrefixOf k
          · simp [List.filter_cons, hkeep, ih]
          · simp [List.filter_cons, hkeep, dictLookup, hk, ih]
  · intro hp
    by_cases hp0 : p = []
    · subst hp0; simp [List.isPrefixOf] at hp
    · simp only [wipe, if_neg hp0]
      induction c with
      | nil => simp
      | cons kv rest ih =>
        obtain ⟨k, v⟩ := kv
        by_cases hk : k = n
        · subst hk
          simp [List.filter_cons, hp, dictLookup, ih]
        · by_cases hkeep : p.isPrefixOf k
          · simp [List.filter_cons, hkeep, dictLookup, hk, ih]
          · simp [List.filter_cons, hkeep, dictLookup, hk, ih]

/-- Witness for C9 at a concrete cache and prefix. -/
theorem wipe_prefix_spec_witness :
    dictLookup (wipe "/Game/Mods/A".toList
        [("/Game/Mods/A/X".toList, (0 : Nat)), ("/Game/B".toList, 1)])
      "/Game/Mods/A/X".toList = none
    ∧ dictLookup (wipe "/Game/Mods/A".toList
        [("/Game/Mods/A/X".toList, (0 : Nat)), ("/Game/B".toList, 1)])
      "/Game/B".toList
      = dictLookup [("/Game/Mods/A/X".toList, (0 : Nat)), ("/Game/B".toList, 1)]
          "/Game/B".toList :=
  ⟨(wipe_prefix_spec "/Game/Mods/A".toList "/Game/Mods/A/X".toList
      [("/Game/Mods/A/X".toList, (0 : Nat)), ("/Game/B".toList, 1)]).1 (by decide),
   (wipe_prefix_spec "/Game/Mods/A".toList "/Game/B".toList
      [("/Game/Mods/A/X".toList, (0 : Nat)), ("/Game/B".toList, 1)]).2.1 (by decide)⟩

/-! ## C10 — single-name invalidation of an absent entry raises KeyError -/

/-- C10: `AssetLoader.__delitem__` raises `KeyError` and leaves the cache
unchanged when the canonicalized name is not cached, and succeeds silently
exactly when it is. -/
theorem delitem_spec (resolve : List Char → Option (List Char)) (x n : List Char)
    (s : LoaderState) (h : clean_asset_name resolve x = some n) :
    (dictLookup s.cache n = none → delItem resolve x s = (.error .keyError, s))
    ∧ (∀ a, dictLookup s.cache n = some a →
        ∃ c', dictRemove s.cache n = some c'
          ∧ delItem resolve x s = (.ok (), { s with cache := c' })) := by
  constructor
  · intro hnone
    have hr : dictRemove s.cache n = none := (dictRemove_none_iff s.cache n).2 hnone
    simp [delItem, h, hr]
  · intro a ha
    cases hr : dictRemove s.cache n with
    | none =>
      have := (dictRemove_none_iff s.cache n).1 hr
      rw [this] at ha
      exact absurd ha (by simp)
    | some c' =>
      exact ⟨c', rfl, by simp [delItem, h, hr]⟩

/-- Witness for C10: deleting an uncached name raises, deleting a cached one
succeeds. -/
theorem delitem_spec_witness :
    delItem resolveNone "Game/Foo".toList ⟨[], 0⟩ = (.error .keyError, ⟨[], 0⟩) :=
  (delitem_spec resolveNone "Game/Foo".toList "/Game/Foo".toList ⟨[], 0⟩ rfl).1 rfl

/-! ## C4 — `nameFromId` across the resolver variants -/

/-- Counterexample to C4 as stated: with an unregistered id,
`IniModResolver.get_name_from_id` returns `None` (not the id string
unchanged), and `FixedModResolver.get_name_from_id` raises `KeyError`
(it fails). -/
theorem get_name_from_id_claim_false :
    IniModResolver.get_name_from_id [] "123".toList = none
    ∧ FixedModResolver.get_name_from_id [] "123".toList = .error .keyError := by
  exact ⟨rfl, rfl⟩

/-- C4 amended: only `ManagedModResolver.get_name_from_id` never fails and
returns an unregistered id unchanged; `IniModResolver` returns an absent
value (`None`) for it, and `FixedModResolver` raises `KeyError`. -/
theorem get_name_from_id_amended :
    (∀ t i, dictLookup t i = none → ManagedModResolver.get_name_from_id t i = i)
    ∧ (∀ t i nm, dictLookup t i = some nm → ManagedModResolver.get_name_from_id t i = nm)
    ∧ (∀ t i, dictLookup t i = none → IniModResolver.get_name_from_id t i = none)
    ∧ (∀ t i, dictLookup t i = none →
        FixedModResolver.get_name_from_id t i = .error .keyError) := by
  refine ⟨?_, ?_, ?_, ?_⟩
  · intro t i h; simp [ManagedModResolver.get_name_from_id, h]
  · intro t i nm h; simp [ManagedModResolver.get_name_from_id, h]
  · intro t i h; simpa [IniModResolver.get_name_from_id] using h
  · intro t i h; simp [FixedModResolver.get_name_from_id, h]

/-- Witness for the amended C4 at concrete tables. -/
theorem get_name_from_id_amended_witness :
    ManagedModResolver.get_name_from_id [] "123".toList = "123".toList
    ∧ ManagedModResolver.get_name_from_id [("1".toList, "Alias".toList)] "1".toList
        = "Alias".toList
    ∧ IniModResolver.get_name_from_id [] "123".toList = none
    ∧ FixedModResolver.get_name_from_id [] "123".toList = .error .keyError :=
  ⟨get_name_from_id_amended.1 [] "123".toList rfl,
   get_name_from_id_amended.2.1 [("1".toList, "Alias".toList)] "1".toList
     "Alias".toList (by decide),
   get_name_from_id_amended.2.2.1 [] "123".toList rfl,
   get_name_from_id_amended.2.2.2 [] "123".toList rfl⟩

/-! ## C5 — `idFromName` across the resolver variants -/

/-- Counterexample to C5 as stated: `IniModResolver.get_id_from_name`
returns `None` for an absent name instead of raising `ModNotFound`, and
`FixedModResolver.get_id_from_name` is case-sensitive — the registered name
`"Foo"` is not found when looked up as `"foo"`, and the failure it does
raise is `KeyError`, not `ModNotFound`. -/
theorem get_id_from_name_claim_false :
    IniModResolver.get_id_from_name [] "Foo".toList = none
    ∧ FixedModResolver.get_id_from_name [("Foo".toList, "1".toList)] "foo".toList
        = .error .keyError := by
  exact ⟨rfl, rfl⟩

/-- C5 amended: only `ManagedModResolver.get_id_from_name` raises
`ModNotFound` for unregistered names (and for an empty stored id), with
case-insensitive lookup; `IniModResolver` is case-insensitive but returns
`None` instead of raising; `FixedModResolver` looks up the exact-case name
and raises `KeyError` when it is absent. -/
theorem get_id_from_name_amended :
    (∀ t n, dictLookup t (lowerList n) = none →
        ManagedModResolver.get_id_from_name t n = .error .modNotFound)
    ∧ (∀ t n i, dictLookup t (lowerList n) = some i → i ≠ [] →
        ManagedModResolver.get_id_from_name t n = .ok i)
    ∧ (∀ t n, dictLookup t (lowerList n) = none →
        IniModResolver.get_id_from_name t n = none)
    ∧ (∀ t n n', lowerList n = lowerList n' →
        IniModResolver.get_id_from_name t n = IniModResolver.get_id_from_name t n')
    ∧ (∀ t n, dictLookup t n = none →
        FixedModResolver.get_id_from_name t n = .error .keyError)
    ∧ (∀ t n i, dictLookup t n = some i →
        FixedModResolver.get_id_from_name t n = .ok i) := by
  refine ⟨?_, ?_, ?_, ?_, ?_, ?_⟩
  · intro t n h; simp [ManagedModResolver.get_id_from_name, h]
  · intro t n i h hne; simp [ManagedModResolver.get_id_from_name, h, hne]
  · intro t n h; simpa [IniModResolver.get_id_from_name] using h
  · intro t n n' h; simp [IniModResolver.get_id_from_name, h]
  · intro t n h; simp [FixedModResolver.get_id_from_name, h]
  · intro t n i h; simp [FixedModResolver.get_id_from_name, h]

/-- Witness for the amended C5 at concrete tables. -/
theorem get_id_from_name_amended_witness :
    ManagedModResolver.get_id_from_name [] "Foo".toList = .error .modNotFound
    ∧ ManagedModResolver.get_id_from_name [("foo".toList, "1".toList)] "FOO".toList
        = .ok "1".toList
    ∧ IniModResolver.get_id_from_name [] "Foo".toList = none
    ∧ IniModResolver.get_id_from_name [("foo".toList, "1".toList)] "FOO".toList
        = IniModResolver.get_id_from_name [("foo".toList, "1".toList)] "foo".toList
    ∧ FixedModResolver.get_id_from_name [("Foo".toList, "1".toList)] "Bar".toList
        = .error .keyError
    ∧ FixedModResolver.get_id_from_name [("Foo".toList, "1".toList)] "Foo".toList
        = .ok "1".toList :=
  ⟨get_id_from_name_amended.1 [] "Foo".toList rfl,
   get_id_from_name_amended.2.1 [("foo".toList, "1".toList)] "FOO".toList "1".toList
     (by decide) (by decide),
   get_id_from_name_amended.2.2.1 [] "Foo".toList rfl,
   get_id_from_name_amended.2.2.2.1 [("foo".toList, "1".toList)] "FOO".toList
     "foo".toList (by decide),
   get_id_from_name_amended.2.2.2.2.1 [("Foo".toList, "1".toList)] "Bar".toList
     (by decide),
   get_id_from_name_amended.2.2.2.2.2 [("Foo".toList, "1".toList)] "Foo".toList
     "1".toList (by decide)⟩

/-! ## C7 — the wide-text (sign-bit) rejection is dead code -/

/-- C7, against the code: the length `0x80000000 = 2^31` (bytes
`[0,0,0,128]`) is *not* rejected as unsupported wide text — the reader
treats it as an ordinary length and fails reading past the stream end — and
no input whatsoever can produce the wide-text error, because the guard
`if count < 0` is tested on an unsigned value. -/
theorem readUnrealString_no_widetext_rejection :
    readUnrealString [0, 0, 0, 128] = .error .outOfData
    ∧ ∀ s : List Nat, isWideTextError (readUnrealString s) = false := by
  constructor
  · rfl
  · intro s
    unfold readUnrealString
    cases h : readUInt32? s with
    | none => rfl
    | some p =>
      obtain ⟨count, s1⟩ := p
      dsimp only
      rw [if_neg (Nat.not_lt_zero count)]
      by_cases h0 : count = 0
      · simp [h0, isWideTextError]
      · rw [if_neg h0]
        cases splitBytes? count s1 with
        | none => rfl
        | some q => rfl

/-! ## C1 — cache at-most-once -/

/-- C1: starting from a state where the canonical name is not yet cached and
its file loads cleanly, two sequential `retrieve` (`__getitem__`) calls
return the same-identity asset, the second call leaves the state untouched
(it is served from the cache), and exactly one underlying file read happens
across both calls. -/
theorem retrieve_cached_once (env : List Char → LoadOutcome)
    (resolve : List Char → Option (List Char)) (x n : List Char) (s : LoaderState)
    (hclean : clean_asset_name resolve x = some n)
    (hmiss : dictLookup s.cache n = none)
    (hok : env n = .ok) :
    ∃ a : UAsset,
      (getItem env resolve x s).1 = .ok a
      ∧ (getItem env resolve x ((getItem env resolve x s).2)).1 = .ok a
      ∧ (getItem env resolve x ((getItem env resolve x s).2)).2
          = (getItem env resolve x s).2
      ∧ ((getItem env resolve x s).2).readCount = s.readCount + 1 := by
  refine ⟨{ assetname := n, name := (splitChar '/' n).getLastD [],
            linked := true, defaultIdentified := true, uid := s.readCount }, ?_, ?_, ?_, ?_⟩
  all_goals
    simp [getItem, hclean, hmiss, load_asset, hok, dictLookup_dictAdd]

/-- Witness for C1 on an initially empty cache. -/
theorem retrieve_cached_once_witness :
    ∃ a : UAsset,
      (getItem envAllOk resolveNone "Game/Foo".toList ⟨[], 0⟩).1 = .ok a
      ∧ (getItem envAllOk resolveNone "Game/Foo".toList
            ((getItem envAllOk resolveNone "Game/Foo".toList ⟨[], 0⟩).2)).1 = .ok a
      ∧ (getItem envAllOk resolveNone "Game/Foo".toList
            ((getItem envAllOk resolveNone "Game/Foo".toList ⟨[], 0⟩).2)).2
          = (getItem envAllOk resolveNone "Game/Foo".toList ⟨[], 0⟩).2
      ∧ ((getItem envAllOk resolveNone "Game/Foo".toList ⟨[], 0⟩).2).readCount = 0 + 1 :=
  retrieve_cached_once envAllOk resolveNone "Game/Foo".toList "/Game/Foo".toList
    ⟨[], 0⟩ rfl rfl rfl

/-! ## C8 — only successful full loads populate the cache -/

/-- C8: a load that raises leaves the cache exactly as it was; a shallow
load (`partially_load_asset`) never writes a cache entry even on success;
and both `_load_asset` and `__getitem__` preserve the invariant that every
cached entry is a fully linked asset with its default object identified. -/
theorem load_cache_discipline :
    (∀ env dnl n s e, (load_asset env dnl n s).1 = .error e →
        ((load_asset env dnl n s).2).cache = s.cache)
    ∧ (∀ env n s, ((partialLoadAsset env n s).2).cache = s.cache)
    ∧ (∀ env dnl n s, goodCache s.cache → goodCache ((load_asset env dnl n s).2).cache)
    ∧ (∀ env resolve n s, goodCache s.cache →
        goodCache ((getItem env resolve n s).2).cache) := by
  have hload : ∀ env dnl n s, goodCache s.cache →
      goodCache ((load_asset env dnl n s).2).cache := by
    intro env dnl n s hg
    cases henv : env n <;> cases dnl <;>
      (simp only [load_asset, henv, Bool.false_eq_true, if_false, if_true, reduceCtorEq]
       try exact hg)
    · intro k a ha
      rw [dictLookup_dictAdd] at ha
      by_cases hk : n = k
      · rw [if_pos hk] at ha
        cases ha
        exact ⟨rfl, rfl⟩
      · rw [if_neg hk] at ha
        exact hg k a ha
  refine ⟨?_, ?_, hload, ?_⟩
  · intro env dnl n s e herr
    cases henv : env n <;> cases dnl <;>
      simp only [load_asset, henv, Bool.false_eq_true, if_false, if_true] <;>
      first
        | rfl
        | (rw [load_asset, henv] at herr; simp at herr)
  · intro env n s
    cases henv : env n <;>
      simp [partialLoadAsset, load_asset, henv]
  · intro env resolve n s hg
    cases hclean : clean_asset_name resolve n with
    | none => simpa [getItem, hclean] using hg
    | some m =>
      cases hmiss : dictLookup s.cache m with
      | some a => simpa [getItem, hclean, hmiss] using hg
      | none =>
        have := hload env false m s hg
        simpa [getItem, hclean, hmiss] using this

/-- Witness for C8: a failed load keeps the cache, a shallow load of an
existing file does not cache, and the invariant holds through a full load
into an empty cache. -/
theorem load_cache_discipline_witness :
    ((load_asset envMissing false "/Game/Foo".toList ⟨[], 0⟩).2).cache = ([] : List (List Char × UAsset))
    ∧ ((partialLoadAsset envAllOk "/Game/Foo".toList ⟨[], 0⟩).2).cache = ([] : List (List Char × UAsset))
    ∧ goodCache ((load_asset envAllOk false "/Game/Foo".toList ⟨[], 0⟩).2).cache :=
  ⟨load_cache_discipline.1 envMissing false "/Game/Foo".toList ⟨[], 0⟩
      LoadErr.assetNotFound rfl,
   load_cache_discipline.2.1 envAllOk "/Game/Foo".toList ⟨[], 0⟩,
   load_cache_discipline.2.2.1 envAllOk false "/Game/Foo".toList ⟨[], 0⟩
     (fun k a ha => absurd ha (by simp [dictLookup]))⟩

/-! ## C2 — corruption detection in `unpackModFile` -/

theorem leVal_u64le {n : Nat} (h : n < 2 ^ 64) : leVal (u64le n) = n := by
  have h' : n < 18446744073709551616 := by omega
  simp only [leVal, u64le, List.foldr]
  omega

theorem splitBytes?_append (n : Nat) (l r : List Nat)
    (h : l.length = n) : splitBytes? n (l ++ r) = some (l, r) := by
  subst h
  simp [splitBytes?, List.take_left, List.drop_left]

theorem readUInt64?_u64le {n : Nat} (h : n < 2 ^ 64) (r : List Nat) :
    readUInt64? (u64le n ++ r) = some (n, r) := by
  simp only [readUInt64?, splitBytes?_append 8 (u64le n) r (by simp [u64le]), leVal_u64le h]

theorem encDescrs_length (ds : List (Nat × Nat)) :
    (encDescrs ds).length = 16 * ds.length := by
  induction ds with
  | nil => simp [encDescrs]
  | cons d rest ih =>
    obtain ⟨c, u⟩ := d
    simp [encDescrs, u64le, ih]
    omega

theorem readChunkSizesFuel_spec (total : Nat) (ds : List (Nat × Nat)) :
    ∀ (fuel found : Nat) (acc : List (Nat × Nat)) (rest : List Nat),
      ds.length + 1 ≤ fuel →
      (∀ p ∈ ds, p.1 < 2 ^ 64 ∧ p.2 < 2 ^ 64) →
      (∀ k, k < ds.length → found + sumU (ds.take k) < total) →
      total ≤ found + sumU ds →
      readChunkSizesFuel total fuel found acc (encDescrs ds ++ rest) =
        .ok (acc ++ ds, found + sumU ds, rest) := by
  induction ds with
  | nil =>
    intro fuel found acc rest hfuel _ _ htot
    obtain ⟨f, rfl⟩ : ∃ f, fuel = f + 1 := ⟨fuel - 1, by omega⟩
    have hnlt : ¬found < total := by
      simp only [sumU, List.foldr] at htot; omega
    simp [readChunkSizesFuel, hnlt, encDescrs, sumU]
  | cons d ds ih =>
    obtain ⟨c, u⟩ := d
    intro fuel found acc rest hfuel hb hk htot
    simp only [List.length_cons] at hfuel
    obtain ⟨f, rfl⟩ : ∃ f, fuel = f + 1 := ⟨fuel - 1, by omega⟩
    have hlt : found < total := by
      have h0 := hk 0 (by simp)
      simpa [sumU] using h0
    have hc : c < 2 ^ 64 := (hb (c, u) (by simp)).1
    have hu : u < 2 ^ 64 := (hb (c, u) (by simp)).2
    have henc : encDescrs ((c, u) :: ds) ++ rest
        = u64le c ++ (u64le u ++ (encDescrs ds ++ rest)) := by
      simp [encDescrs, List.append_assoc]
    rw [henc]
    simp only [readChunkSizesFuel, if_pos hlt, readUInt64?_u64le hc, readUInt64?_u64le hu]
    rw [ih f (found + u) (acc ++ [(c, u)]) rest (by omega)
      (fun p hp => hb p (List.mem_cons_of_mem _ hp))
      (fun k hkk => by
        have := hk (k + 1) (by simpa using Nat.succ_lt_succ hkk)
        simpa [sumU, Nat.add_assoc] using this)
      (by simp only [sumU, List.foldr] at htot ⊢; omega)]
    simp [sumU, Nat.add_assoc]

/-- Header-unfolding helper for `unpackModFile`. -/
theorem unpackModFile_header (d : List Nat → Option (List Nat)) (t a b c : Nat)
    (rest : List Nat) (ht : t < 2 ^ 64) (ha : a < 2 ^ 64) (hb : b < 2 ^ 64)
    (hc : c < 2 ^ 64) :
    unpackModFile d (u64le t ++ u64le a ++ u64le b ++ u64le c ++ rest)
      = if t ≠ MAGIC then .error .invalidHeader
        else
          match readChunkSizesFuel c (rest.length + 1) 0 [] rest with
          | .error e => .error e
          | .ok (chunkSizes, sizeFound, s5) =>
            if sizeFound ≠ c then .error .invalidChunkSizes
            else processChunks d a chunkSizes s5 := by
  simp only [unpackModFile, List.append_assoc, readUInt64?_u64le ht,
    readUInt64?_u64le ha, readUInt64?_u64le hb, readUInt64?_u64le hc]

/-- C2: `unpackModFile` raises and produces no output (1) whenever the magic
token differs from `0x9e2a83c1`; (2) whenever the accumulated descriptor
uncompressed sizes end up different from the header's total, for *every*
payload suffix — i.e. before reading any payload bytes; (3)/(5) whenever a
decompressed chunk's length differs from its descriptor's declared size;
(4)/(6) whenever a chunk other than the last decompresses to a length other
than the nominal chunk size.  (3)/(4) exhibit this through `unpackModFile`
on whole containers, (5)/(6) for the chunk loop at any position. -/
theorem unpackModFile_corruption :
    (∀ (d : List Nat → Option (List Nat)) (t a b c : Nat) (rest : List Nat),
      t < 2 ^ 64 → a < 2 ^ 64 → b < 2 ^ 64 → c < 2 ^ 64 → t ≠ MAGIC →
      unpackModFile d (u64le t ++ u64le a ++ u64le b ++ u64le c ++ rest)
        = .error .invalidHeader)
    ∧ (∀ (d : List Nat → Option (List Nat)) (a b total : Nat)
        (ds : List (Nat × Nat)) (payload : List Nat),
      a < 2 ^ 64 → b < 2 ^ 64 → total < 2 ^ 64 →
      (∀ p ∈ ds, p.1 < 2 ^ 64 ∧ p.2 < 2 ^ 64) →
      (∀ k, k < ds.length → sumU (ds.take k) < total) →
      total < sumU ds →
      unpackModFile d (u64le MAGIC ++ u64le a ++ u64le b ++ u64le total
          ++ encDescrs ds ++ payload)
        = .error .invalidChunkSizes)
    ∧ (∀ (d : List Nat → Option (List Nat)) (a b c0 u0 : Nat)
        (chunk junk out : List Nat),
      a < 2 ^ 64 → b < 2 ^ 64 → c0 < 2 ^ 64 → u0 < 2 ^ 64 → 0 < u0 →
      chunk.length = c0 → d chunk = some out → out.length ≠ u0 →
      unpackModFile d (u64le MAGIC ++ u64le a ++ u64le b ++ u64le u0
          ++ encDescrs [(c0, u0)] ++ (chunk ++ junk))
        = .error .chunkVerifyFailed)
    ∧ (∀ (d : List Nat → Option (List Nat)) (b nominal c0 u0 c1 u1 : Nat)
        (chunk junk out : List Nat),
      nominal < 2 ^ 64 → b < 2 ^ 64 → c0 < 2 ^ 64 → u0 < 2 ^ 64 →
      c1 < 2 ^ 64 → u1 < 2 ^ 64 → 0 < u0 → 0 < u1 → u0 + u1 < 2 ^ 64 →
      chunk.length = c0 → d chunk = some out → out.length = u0 → u0 ≠ nominal →
      unpackModFile d (u64le MAGIC ++ u64le nominal ++ u64le b ++ u64le (u0 + u1)
          ++ encDescrs [(c0, u0), (c1, u1)] ++ (chunk ++ junk))
        = .error .chunkWrongSize)
    ∧ (∀ (d : List Nat → Option (List Nat)) (nominal c u : Nat)
        (rest : List (Nat × Nat)) (chunk s out : List Nat),
      chunk.length = c → d chunk = some out → out.length ≠ u →
      processChunks d nominal ((c, u) :: rest) (chunk ++ s)
        = .error .chunkVerifyFailed)
    ∧ (∀ (d : List Nat → Option (List Nat)) (nominal c u : Nat)
        (rest : List (Nat × Nat)) (chunk s out : List Nat),
      rest ≠ [] → chunk.length = c → d chunk = some out → out.length = u →
      u ≠ nominal →
      processChunks d nominal ((c, u) :: rest) (chunk ++ s)
        = .error .chunkWrongSize) := by
  have hmagic : MAGIC < 2 ^ 64 := by norm_num [MAGIC]
  have hchunkErr : ∀ (d : List Nat → Option (List Nat)) (nominal c u : Nat)
      (rest : List (Nat × Nat)) (chunk s out : List Nat),
      chunk.length = c → d chunk = some out → out.length ≠ u →
      processChunks d nominal ((c, u) :: rest) (chunk ++ s)
        = .error .chunkVerifyFailed := by
    intro d nominal c u rest chunk s out hlen hd hne
    simp only [processChunks, splitBytes?_append c chunk s hlen, hd]
    rw [if_pos hne]
  have hchunkNom : ∀ (d : List Nat → Option (List Nat)) (nominal c u : Nat)
      (rest : List (Nat × Nat)) (chunk s out : List Nat),
      rest ≠ [] → chunk.length = c → d chunk = some out → out.length = u →
      u ≠ nominal →
      processChunks d nominal ((c, u) :: rest) (chunk ++ s)
        = .error .chunkWrongSize := by
    intro d nominal c u rest chunk s out hrest hlen hd heq hne
    simp only [processChunks, splitBytes?_append c chunk s hlen, hd]
    rw [if_neg (by simp [heq]), if_pos ⟨by simpa [heq] using hne, hrest⟩]
  refine ⟨?_, ?_, ?_, ?_, hchunkErr, hchunkNom⟩
  · intro d t a b c rest ht ha hb hc hne
    rw [unpackModFile_header d t a b c rest ht ha hb hc, if_pos hne]
  · intro d a b total ds payload ha hb htotb hdsb hpre hsum
    rw [List.append_assoc (u64le MAGIC ++ u64le a ++ u64le b ++ u64le total)]
    rw [unpackModFile_header d MAGIC a b total (encDescrs ds ++ payload) hmagic ha hb htotb]
    rw [if_neg (by simp)]
    rw [readChunkSizesFuel_spec total ds ((encDescrs ds ++ payload).length + 1) 0 []
      payload (by simp [encDescrs_length, List.length_append]; omega) hdsb
      (fun k hk => by simpa using hpre k hk) (by omega)]
    dsimp only
    rw [if_pos (by omega)]
  · intro d a b c0 u0 chunk junk out ha hb hc0 hu0 hu0pos hlen hd hne
    rw [List.append_assoc (u64le MAGIC ++ u64le a ++ u64le b ++ u64le u0)]
    rw [unpackModFile_header d MAGIC a b u0 (encDescrs [(c0, u0)] ++ (chunk ++ junk))
      hmagic ha hb hu0]
    rw [if_neg (by simp)]
    rw [readChunkSizesFuel_spec u0 [(c0, u0)]
      ((encDescrs [(c0, u0)] ++ (chunk ++ junk)).length + 1) 0 [] (chunk ++ junk)
      (by simp only [encDescrs_length, List.length_append, List.length_cons,
            List.length_nil]; omega)
      (by intro p hp
          simp only [List.mem_singleton] at hp
          subst hp
          exact ⟨hc0, hu0⟩)
      (by intro k hk
          have hk0 : k = 0 := by
            simp only [List.length_cons, List.length_nil] at hk
            omega
          subst hk0
          simpa [sumU] using hu0pos)
      (by simp only [sumU, List.foldr]; omega)]
    dsimp only
    rw [if_neg (by simp only [sumU, List.foldr]; omega)]
    simpa [sumU] using hchunkErr d a c0 u0 [] chunk junk out hlen hd hne
  · intro d b nominal c0 u0 c1 u1 chunk junk out hnom hbb hc0 hu0 hc1 hu1
      hu0pos hu1pos husum hlen hd heq hne
    rw [List.append_assoc (u64le MAGIC ++ u64le nominal ++ u64le b ++ u64le (u0 + u1))]
    rw [unpackModFile_header d MAGIC nominal b (u0 + u1)
      (encDescrs [(c0, u0), (c1, u1)] ++ (chunk ++ junk)) hmagic hnom hbb husum]
    rw [if_neg (by simp)]
    rw [readChunkSizesFuel_spec (u0 + u1) [(c0, u0), (c1, u1)]
      ((encDescrs [(c0, u0), (c1, u1)] ++ (chunk ++ junk)).length + 1) 0 []
      (chunk ++ junk)
      (by simp only [encDescrs_length, List.length_append, List.length_cons,
            List.length_nil]; omega)
      (by intro p hp
          simp only [List.mem_cons, List.mem_singleton, List.not_mem_nil, or_false] at hp
          rcases hp with h | h <;> subst h
          · exact ⟨hc0, hu0⟩
          · exact ⟨hc1, hu1⟩)
      (by intro k hk
          have hk01 : k = 0 ∨ k = 1 := by
            simp only [List.length_cons, List.length_nil] at hk
            omega
          rcases hk01 with rfl | rfl
          · simp only [List.take_zero, sumU, List.foldr]
            omega
          · simp only [List.take_succ_cons, List.take_zero, sumU, List.foldr]
            omega)
      (by simp only [sumU, List.foldr]; omega)]
    dsimp only
    rw [if_neg (by simp only [sumU, List.foldr]; omega)]
    simpa [sumU] using hchunkNom d nominal c0 u0 [(c1, u1)] chunk junk out
      (by simp) hlen hd heq hne

/-- Witness for C2: each corruption scenario at a concrete container. -/
theorem unpackModFile_corruption_witness :
    unpackModFile decompIncr (u64le 0 ++ u64le 8 ++ u64le 0 ++ u64le 0 ++ [])
        = .error .invalidHeader
    ∧ unpackModFile decompIncr (u64le MAGIC ++ u64le 4 ++ u64le 0 ++ u64le 3
          ++ encDescrs [(1, 5)] ++ [])
        = .error .invalidChunkSizes
    ∧ unpackModFile decompIncr (u64le MAGIC ++ u64le 4 ++ u64le 0 ++ u64le 2
          ++ encDescrs [(1, 2)] ++ ([9] ++ []))
        = .error .chunkVerifyFailed
    ∧ unpackModFile decompIncr (u64le MAGIC ++ u64le 5 ++ u64le 0 ++ u64le (1 + 1)
          ++ encDescrs [(1, 1), (1, 1)] ++ ([9] ++ []))
        = .error .chunkWrongSize
    ∧ processChunks decompIncr 7 ((1, 3) :: [(1, 1)]) ([9] ++ [])
        = .error .chunkVerifyFailed
    ∧ processChunks decompIncr 7 ((1, 1) :: [(1, 1)]) ([9] ++ [])
        = .error .chunkWrongSize :=
  ⟨unpackModFile_corruption.1 decompIncr 0 8 0 0 [] (by decide) (by decide)
      (by decide) (by decide) (by decide),
   unpackModFile_corruption.2.1 decompIncr 4 0 3 [(1, 5)] [] (by decide) (by decide)
      (by decide) (by decide) (by decide) (by decide),
   unpackModFile_corruption.2.2.1 decompIncr 4 0 1 2 [9] [] [10] (by decide)
      (by decide) (by decide) (by decide) (by decide) (by decide) rfl (by decide),
   unpackModFile_corruption.2.2.2.1 decompIncr 0 5 1 1 1 1 [9] [] [10] (by decide)
      (by decide) (by decide) (by decide) (by decide) (by decide) (by decide)
      (by decide) (by decide) (by decide) rfl (by decide) (by decide),
   unpackModFile_corruption.2.2.2.2.1 decompIncr 7 1 3 [(1, 1)] [9] [] [10]
      (by decide) rfl (by decide),
   unpackModFile_corruption.2.2.2.2.2 decompIncr 7 1 1 [(1, 1)] [9] [] [10]
      (by decide) (by decide) rfl (by decide) (by decide)⟩

/-! ## C6 — where entries after a `}` go -/

/-- Counterexample to C6 as stated: in `acfDocC` the entry `"C" "3"` appears
after the `}` that closes the `Child` section; the claim puts it in the
enclosing `Root` section, but `parseAcf` puts it inside the closed `Child`
section (`acfChildActual`), and `Root` has no `C` key at all. -/
theorem parseAcf_close_brace_counterexample :
    parseAcf acfDocC = .ok [("Root".toList, .sect acfRootActual)]
    ∧ dictLookup acfRootActual "C".toList = none
    ∧ dictLookup acfChildActual "C".toList = some (.str "3".toList) :=
  ⟨rfl, rfl, rfl⟩

/-- C6 amended: a `}` line only pops the pending-section-name stack and
leaves both the output and the current-section pointer (`csPath`) unchanged;
the pointer is reassigned only at a `{` line; and a key-value line is always
written through the current pointer.  Hence an entry after a `}` (and before
any new `{`) lands in the just-closed section, not its parent. -/
theorem parseAcf_close_brace_amended :
    (∀ (st : AcfSt) (s0 : List Char) (ss : List (List Char)),
      st.sections = ss ++ [s0] →
      acfLine st ['\x7d'] = .ok (some ⟨st.output, st.csPath, ss⟩))
    ∧ (∀ (st : AcfSt) (line k0 v0 : List Char) (out' : List (List Char × AcfValue)),
      line ≠ [] →
      pySplit2 (pyStrip wsChar line) = some (k0, v0) →
      setAtPath st.output st.csPath ((stripQuotes k0).dropWhile wsChar)
          (AcfValue.str (dropEndWhile wsChar (stripQuotes v0))) = some out' →
      acfLine st line = .ok (some ⟨out', st.csPath, st.sections⟩))
    ∧ (∀ (st : AcfSt) (out' : List (List Char × AcfValue)),
      openSection st.output st.sections = some out' →
      acfLine st ['\x7b'] = .ok (some ⟨out', st.sections, st.sections⟩)) := by
  have hredClose : ∀ (out : List (List Char × AcfValue)) (cs sec : List (List Char)),
      acfLine ⟨out, cs, sec⟩ ['\x7d']
        = match sec with
          | [] => .error .corruptSection
          | _ :: _ => .ok (some ⟨out, cs, sec.dropLast⟩) := fun _ _ _ => rfl
  have hredOpen : ∀ (out : List (List Char × AcfValue)) (cs sec : List (List Char)),
      acfLine ⟨out, cs, sec⟩ ['\x7b']
        = match openSection out sec with
          | some out' => .ok (some ⟨out', sec, sec⟩)
          | none => .error .corruptSection := fun _ _ _ => rfl
  refine ⟨?_, ?_, ?_⟩
  · intro st s0 ss hsec
    obtain ⟨out, cs, sec⟩ := st
    dsimp only at hsec ⊢
    subst hsec
    rw [hredClose]
    cases ss with
    | nil => simp
    | cons a as =>
      have h : (a :: (as ++ [s0])).dropLast = a :: as := by
        rw [← List.cons_append, List.dropLast_concat]
      simp [h]
  · intro st line k0 v0 out' hne hsplit hset
    obtain ⟨out, cs, sec⟩ := st
    dsimp only at hsplit hset ⊢
    simp only [acfLine, if_neg hne, hsplit, hset]
  · intro st out' hopen
    obtain ⟨out, cs, sec⟩ := st
    dsimp only at hopen ⊢
    rw [hredOpen, hopen]

/-- Witness for the amended C6 at concrete states. -/
theorem parseAcf_close_brace_amended_witness :
    acfLine ⟨[], [], ["A".toList]⟩ ['\x7d'] = .ok (some ⟨[], [], []⟩)
    ∧ acfLine ⟨[], [], []⟩ "a b".toList
        = .ok (some ⟨[("a".toList, AcfValue.str "b".toList)], [], []⟩)
    ∧ acfLine ⟨[], [], ["A".toList]⟩ ['\x7b']
        = .ok (some ⟨[("A".toList, AcfValue.sect [])], ["A".toList], ["A".toList]⟩) :=
  ⟨parseAcf_close_brace_amended.1 ⟨[], [], ["A".toList]⟩ "A".toList [] rfl,
   parseAcf_close_brace_amended.2.1 ⟨[], [], []⟩ "a b".toList "a".toList "b".toList
     [("a".toList, AcfValue.str "b".toList)] (by decide) rfl rfl,
   parseAcf_close_brace_amended.2.2 ⟨[], [], ["A".toList]⟩
     [("A".toList, AcfValue.sect [])] rfl⟩

/-! ## C3 — idempotence of `clean_asset_name` -/

theorem safeChar_ne_slash {c : Char} (h : safeChar c = true) : c ≠ '/' := by
  intro he; subst he; exact absurd h (by decide)

theorem safeChar_ne_bslash {c : Char} (h : safeChar c = true) : c ≠ '\\' := by
  intro he; subst he; exact absurd h (by decide)

theorem safeChar_ne_dot {c : Char} (h : safeChar c = true) : c ≠ '.' := by
  intro he; subst he; exact absurd h (by decide)

theorem safeChar_not_ws {c : Char} (h : safeChar c = true) : wsChar c = false := by
  cases hw : wsChar c
  · rfl
  · exfalso
    have hcs : c = ' ' ∨ c = '\t' ∨ c = '\n' ∨ c = '\r' ∨ c = '\x0b' ∨ c = '\x0c' := by
      simpa [wsChar, or_assoc] using hw
    rcases hcs with rfl | rfl | rfl | rfl | rfl | rfl <;> exact absurd h (by decide)

theorem validSeg_iff {l : List Char} :
    validSeg l = true ↔ l ≠ [] ∧ ∀ c ∈ l, safeChar c = true := by
  simp [validSeg, List.all_eq_true, List.isEmpty_iff]

theorem mem_joinChar (sep : Char) : ∀ (ps : List (List Char)) (c : Char),
    c ∈ joinChar sep ps → c = sep ∨ ∃ p ∈ ps, c ∈ p := by
  intro ps
  induction ps with
  | nil => intro c h; simp [joinChar] at h
  | cons p ps ih =>
    intro c h
    cases ps with
    | nil => exact Or.inr ⟨p, by simp, by simpa [joinChar] using h⟩
    | cons q qs =>
      have hj : joinChar sep (p :: q :: qs) = p ++ sep :: joinChar sep (q :: qs) := rfl
      rw [hj] at h
      rcases List.mem_append.1 h with hp | hrest
      · exact Or.inr ⟨p, by simp, hp⟩
      · rcases List.mem_cons.1 hrest with rfl | hj2
        · exact Or.inl rfl
        · rcases ih c hj2 with h1 | ⟨r, hr, hcr⟩
          · exact Or.inl h1
          · exact Or.inr ⟨r, by simp [hr], hcr⟩

theorem joinChar_cons_head (sep a : Char) (t : List Char) (ps : List (List Char)) :
    ∃ r, joinChar sep ((a :: t) :: ps) = a :: r := by
  cases ps with
  | nil => exact ⟨t, rfl⟩
  | cons q qs => exact ⟨t ++ sep :: joinChar sep (q :: qs), rfl⟩

theorem joinChar_reverse_head (sep : Char) : ∀ (ps : List (List Char)),
    ps ≠ [] → (∀ p ∈ ps, validSeg p = true) →
    ∃ c r, (joinChar sep ps).reverse = c :: r ∧ safeChar c = true := by
  intro ps
  induction ps with
  | nil => intro h; exact absurd rfl h
  | cons p ps ih =>
    intro _ hv
    cases ps with
    | nil =>
      obtain ⟨hne, hsafe⟩ := validSeg_iff.1 (hv p (by simp))
      cases hr : p.reverse with
      | nil => exact absurd (by simpa using hr) hne
      | cons c r =>
        refine ⟨c, r, hr, hsafe c ?_⟩
        have : c ∈ p.reverse := by rw [hr]; simp
        simpa using this
    | cons q qs =>
      have hj : joinChar sep (p :: q :: qs) = p ++ sep :: joinChar sep (q :: qs) := rfl
      obtain ⟨c, r, hcr, hsafe⟩ := ih (by simp) (fun x hx => hv x (by simp [hx]))
      refine ⟨c, r ++ [sep] ++ p.reverse, ?_, hsafe⟩
      rw [hj, List.reverse_append, List.reverse_cons, hcr]
      simp [List.append_assoc]

theorem dropWhile_cons_false (q : Char → Bool) {c : Char} {t : List Char}
    (h : q c = false) : (c :: t).dropWhile q = c :: t := by
  simp [List.dropWhile_cons, h]

theorem pyStrip_eq_self {q : Char → Bool} {l : List Char}
    (h : ∀ c ∈ l, q c = false) : pyStrip q l = l := by
  unfold pyStrip dropEndWhile
  have h1 : l.dropWhile q = l := by
    cases l with
    | nil => rfl
    | cons c t => exact dropWhile_cons_false q (h c (by simp))
  rw [h1]
  have h2 : l.reverse.dropWhile q = l.reverse := by
    cases hr : l.reverse with
    | nil => rfl
    | cons c t =>
      refine dropWhile_cons_false q (h c ?_)
      have : c ∈ l.reverse := by rw [hr]; simp
      simpa using this
  rw [h2, List.reverse_reverse]

theorem takeWhile_all {q : Char → Bool} : ∀ {l : List Char},
    (∀ c ∈ l, q c = true) → l.takeWhile q = l := by
  intro l h
  induction l with
  | nil => rfl
  | cons c t ih =>
    rw [List.takeWhile_cons, h c (by simp)]
    simp [ih (fun x hx => h x (by simp [hx]))]

theorem splitChar_ne_nil (sep : Char) : ∀ (l : List Char), splitChar sep l ≠ [] := by
  intro l
  induction l with
  | nil => simp [splitChar]
  | cons c t ih =>
    rw [splitChar]
    by_cases hc : c = sep
    · simp [hc]
    · simp only [if_neg hc]
      cases hps : splitChar sep t with
      | nil => simp
      | cons p ps' => simp

theorem splitChar_singleton {sep : Char} : ∀ {p : List Char},
    (∀ c ∈ p, c ≠ sep) → splitChar sep p = [p] := by
  intro p h
  induction p with
  | nil => rfl
  | cons c t ih =>
    have hc : ¬c = sep := h c (by simp)
    rw [splitChar, ih (fun x hx => h x (by simp [hx]))]
    simp [hc]

theorem splitChar_append_sep {sep : Char} : ∀ {p : List Char} (t : List Char),
    (∀ c ∈ p, c ≠ sep) →
    splitChar sep (p ++ sep :: t) = p :: splitChar sep t := by
  intro p
  induction p with
  | nil =>
    intro t _
    simp [splitChar]
  | cons c p' ih =>
    intro t h
    have hc : ¬c = sep := h c (by simp)
    have hrec := ih t (fun x hx => h x (by simp [hx]))
    rw [List.cons_append, splitChar, hrec]
    simp [hc]

theorem splitChar_join {sep : Char} : ∀ (ps : List (List Char)), ps ≠ [] →
    (∀ p ∈ ps, ∀ c ∈ p, c ≠ sep) →
    splitChar sep (joinChar sep ps) = ps := by
  intro ps
  induction ps with
  | nil => intro h; exact absurd rfl h
  | cons p ps ih =>
    intro _ h
    cases ps with
    | nil => exact splitChar_singleton (h p (by simp))
    | cons q qs =>
      have hj : joinChar sep (p :: q :: qs) = p ++ sep :: joinChar sep (q :: qs) := rfl
      rw [hj, splitChar_append_sep (joinChar sep (q :: qs)) (h p (by simp)),
        ih (by simp) (fun x hx c hc => h x (by simp [hx]) c hc)]

/-- The characters of a canonical output `'/' :: joinChar '/' ps` are the
slash or characters of the (valid) segments. -/
theorem canonical_char_cases {ps : List (List Char)}
    (hv : ∀ p ∈ ps, validSeg p = true) :
    ∀ c ∈ ('/' :: joinChar '/' ps), c = '/' ∨ safeChar c = true := by
  intro c hc
  rcases List.mem_cons.1 hc with rfl | hcj
  · exact Or.inl rfl
  · rcases mem_joinChar '/' ps c hcj with h1 | ⟨p, hp, hcp⟩
    · exact Or.inl h1
    · exact Or.inr ((validSeg_iff.1 (hv p hp)).2 c hcp)

/-- `normalizeRaw` is the identity step between a canonical output and its
segment list: dot-truncation, the three strips and the backslash
replacement only remove the leading slash. -/
theorem normalizeRaw_canonical (ps : List (List Char)) (hne : ps ≠ [])
    (hv : ∀ p ∈ ps, validSeg p = true) :
    normalizeRaw ('/' :: joinChar '/' ps) = joinChar '/' ps := by
  have hchars := canonical_char_cases hv
  unfold normalizeRaw
  have hdot : truncDot ('/' :: joinChar '/' ps) = '/' :: joinChar '/' ps := by
    refine takeWhile_all (fun c hc => ?_)
    rcases hchars c hc with rfl | hs
    · decide
    · simpa using safeChar_ne_dot hs
  rw [hdot]
  have hws : pyStrip wsChar ('/' :: joinChar '/' ps) = '/' :: joinChar '/' ps := by
    refine pyStrip_eq_self (fun c hc => ?_)
    rcases hchars c hc with rfl | hs
    · decide
    · exact safeChar_not_ws hs
  rw [hws]
  have hslash : pyStrip (fun c => c = '/') ('/' :: joinChar '/' ps)
      = joinChar '/' ps := by
    unfold pyStrip dropEndWhile
    obtain ⟨p, ps'⟩ : ∃ p ps', ps = p :: ps' := by
      cases ps with
      | nil => exact absurd rfl hne
      | cons p ps' => exact ⟨p, ps', rfl⟩
    obtain ⟨hp, rfl⟩ := ps'
    obtain ⟨hpne, hpsafe⟩ := validSeg_iff.1 (hv p (by simp))
    obtain ⟨a, t, rfl⟩ : ∃ a t, p = a :: t := by
      cases p with
      | nil => exact absurd rfl hpne
      | cons a t => exact ⟨a, t, rfl⟩
    obtain ⟨r, hr⟩ := joinChar_cons_head '/' a t hp
    have hstep1 : ('/' :: joinChar '/' ((a :: t) :: hp)).dropWhile (fun c => c = '/')
        = joinChar '/' ((a :: t) :: hp) := by
      rw [List.dropWhile_cons]
      simp only [decide_eq_true_eq, if_pos rfl]
      rw [hr]
      exact dropWhile_cons_false (fun c => decide (c = '/'))
        (decide_eq_false (safeChar_ne_slash (hpsafe a (by simp))))
    rw [hstep1]
    obtain ⟨c, r', hrev, hcsafe⟩ :=
      joinChar_reverse_head '/' ((a :: t) :: hp) (by simp) hv
    rw [hrev, dropWhile_cons_false (fun c => decide (c = '/'))
        (decide_eq_false (safeChar_ne_slash hcsafe)),
      ← hrev, List.reverse_reverse]
  rw [hslash]
  have hbs : pyStrip (fun c => c = '\\') (joinChar '/' ps) = joinChar '/' ps := by
    refine pyStrip_eq_self (fun c hc => ?_)
    rcases mem_joinChar '/' ps c hc with rfl | ⟨p, hp, hcp⟩
    · decide
    · simpa using safeChar_ne_bslash ((validSeg_iff.1 (hv p hp)).2 c hcp)
  rw [hbs]
  have hmap : (joinChar '/' ps).map slashize = joinChar '/' ps := by
    have : ∀ c ∈ joinChar '/' ps, slashize c = c := by
      intro c hc
      rcases mem_joinChar '/' ps c hc with rfl | ⟨p, hp, hcp⟩
      · decide
      · simp [slashize,
          safeChar_ne_bslash ((validSeg_iff.1 (hv p hp)).2 c hcp)]
    calc (joinChar '/' ps).map slashize = (joinChar '/' ps).map id :=
          List.map_congr_left this
      _ = joinChar '/' ps := List.map_id _
  rw [hmap]

/-- A segment list on which the mod-resolution step has nothing to do. -/
def noModsToResolve (ps : List (List Char)) : Prop :=
  ∀ q0 q1 q2 rest, ps = q0 :: q1 :: q2 :: rest →
    ¬(lowerList q1 = "mods".toList ∧ isNumericSeg q2 = true)

/-- A segment list on which the content-rewrite step has nothing to do. -/
def noContentHead (ps : List (List Char)) : Prop :=
  ∀ q0 rest, ps = q0 :: rest → lowerList q0 ≠ "content".toList

theorem modsStep_id {resolve : List Char → Option (List Char)}
    {ps : List (List Char)} (h : noModsToResolve ps) :
    modsStep resolve ps = some ps := by
  match ps with
  | [] => rfl
  | [p0] => rfl
  | [p0, p1] => rfl
  | p0 :: p1 :: p2 :: rest =>
    rw [modsStep, if_neg (h p0 p1 p2 rest rfl)]

theorem contentStep_id {ps : List (List Char)} (h : noContentHead ps) :
    contentStep ps = ps := by
  match ps with
  | [] => rfl
  | p0 :: rest => rw [contentStep, if_neg (h p0 rest rfl)]

theorem contentStep_shape (p0 : List Char) (rest : List (List Char)) :
    contentStep (p0 :: rest) = "Game".toList :: rest
    ∨ contentStep (p0 :: rest) = p0 :: rest := by
  rw [contentStep]
  by_cases h : lowerList p0 = "content".toList
  · exact Or.inl (by rw [if_pos h])
  · exact Or.inr (by rw [if_neg h])

theorem contentStep_noContentHead : ∀ (ps : List (List Char)),
    noContentHead (contentStep ps) := by
  intro ps
  match ps with
  | [] => intro q0 rest h; cases h
  | p0 :: rest =>
    intro q0 rest' heq
    rw [contentStep] at heq
    by_cases hc : lowerList p0 = "content".toList
    · rw [if_pos hc] at heq
      injection heq with h1 h2
      rw [← h1]
      decide
    · rw [if_neg hc] at heq
      injection heq with h1 h2
      rw [← h1]
      exact hc

theorem contentStep_valid {ps : List (List Char)}
    (hv : ∀ p ∈ ps, validSeg p = true) :
    ∀ p ∈ contentStep ps, validSeg p = true := by
  match ps with
  | [] => exact hv
  | p0 :: rest =>
    rcases contentStep_shape p0 rest with hs | hs <;> rw [hs]
    · intro p hp
      rcases List.mem_cons.1 hp with rfl | hp'
      · decide
      · exact hv p (by simp [hp'])
    · exact hv

theorem contentStep_mods {ps : List (List Char)} (h : noModsToResolve ps) :
    noModsToResolve (contentStep ps) := by
  match ps with
  | [] => exact h
  | p0 :: rest =>
    intro q0 q1 q2 rest' heq
    rw [contentStep] at heq
    by_cases hc : lowerList p0 = "content".toList
    · rw [if_pos hc] at heq
      injection heq with h1 h2
      exact h p0 q1 q2 rest' (by rw [h2])
    · rw [if_neg hc] at heq
      exact h q0 q1 q2 rest' heq

theorem contentStep_ne_nil {ps : List (List Char)} (h : ps ≠ []) :
    contentStep ps ≠ [] := by
  match ps with
  | [] => exact absurd rfl h
  | p0 :: rest =>
    rcases contentStep_shape p0 rest with hs | hs <;> rw [hs] <;> simp

theorem modsStep_some_valid {resolve : List Char → Option (List Char)}
    {ps ps' : List (List Char)} (hr : goodResolver resolve)
    (hv : ∀ p ∈ ps, validSeg p = true) (h : modsStep resolve ps = some ps') :
    ∀ p ∈ ps', validSeg p = true := by
  match ps with
  | [] => cases h; exact hv
  | [p0] => cases h; exact hv
  | [p0, p1] => cases h; exact hv
  | p0 :: p1 :: p2 :: rest =>
    rw [modsStep] at h
    by_cases hcond : lowerList p1 = "mods".toList ∧ isNumericSeg p2 = true
    · rw [if_pos hcond] at h
      cases hres : resolve p2 with
      | none => rw [hres] at h; cases h
      | some nm =>
        rw [hres] at h
        cases h
        intro p hp
        rcases List.mem_cons.1 hp with rfl | hp1
        · exact hv p (by simp)
        rcases List.mem_cons.1 hp1 with rfl | hp2
        · exact hv p (by simp)
        rcases List.mem_cons.1 hp2 with rfl | hp3
        · exact (hr p2 p hres).1
        · exact hv p (by simp [hp3])
    · rw [if_neg hcond] at h
      cases h
      exact hv

theorem modsStep_some_noMods {resolve : List Char → Option (List Char)}
    {ps ps' : List (List Char)} (hr : goodResolver resolve)
    (h : modsStep resolve ps = some ps') : noModsToResolve ps' := by
  match ps with
  | [] => cases h; intro q0 q1 q2 rest heq; cases heq
  | [p0] => cases h; intro q0 q1 q2 rest heq; cases heq
  | [p0, p1] => cases h; intro q0 q1 q2 rest heq; cases heq
  | p0 :: p1 :: p2 :: rest =>
    rw [modsStep] at h
    by_cases hcond : lowerList p1 = "mods".toList ∧ isNumericSeg p2 = true
    · rw [if_pos hcond] at h
      cases hres : resolve p2 with
      | none => rw [hres] at h; cases h
      | some nm =>
        rw [hres] at h
        cases h
        intro q0 q1 q2 rest' heq
        cases heq
        intro hcond'
        exact absurd hcond'.2 (by simp [(hr p2 nm hres).2])
    · rw [if_neg hcond] at h
      cases h
      intro q0 q1 q2 rest' heq
      cases heq
      exact hcond

theorem modsStep_some_ne_nil {resolve : List Char → Option (List Char)}
    {ps ps' : List (List Char)} (hne : ps ≠ [])
    (h : modsStep resolve ps = some ps') : ps' ≠ [] := by
  match ps with
  | [] => exact absurd rfl hne
  | [p0] => cases h; simp
  | [p0, p1] => cases h; simp
  | p0 :: p1 :: p2 :: rest =>
    rw [modsStep] at h
    by_cases hcond : lowerList p1 = "mods".toList ∧ isNumericSeg p2 = true
    · rw [if_pos hcond] at h
      cases hres : resolve p2 with
      | none => rw [hres] at h; cases h
      | some nm => rw [hres] at h; cases h; simp
    · rw [if_neg hcond] at h; cases h; simp

/-- A canonical output is a fixed point of `clean_asset_name`. -/
theorem clean_asset_name_fixpoint (resolve : List Char → Option (List Char))
    (ps : List (List Char)) (hne : ps ≠ [])
    (hv : ∀ p ∈ ps, validSeg p = true)
    (hmods : noModsToResolve ps) (hhead : noContentHead ps) :
    clean_asset_name resolve ('/' :: joinChar '/' ps)
      = some ('/' :: joinChar '/' ps) := by
  unfold clean_asset_name
  rw [normalizeRaw_canonical ps hne hv,
    splitChar_join ps hne
      (fun p hp c hc => safeChar_ne_slash ((validSeg_iff.1 (hv p hp)).2 c hc)),
    modsStep_id hmods]
  dsimp only
  rw [contentStep_id hhead]

/-- C3: `clean_asset_name` is idempotent on every valid raw asset name, for
any well-behaved resolver (one whose aliases are valid non-numeric path
segments — the spec's invariant on mod aliases). -/
theorem clean_asset_name_idempotent (resolve : List Char → Option (List Char))
    (n m : List Char) (hn : validRawName n = true) (hr : goodResolver resolve)
    (h : clean_asset_name resolve n = some m) :
    clean_asset_name resolve m = some m := by
  have hv : ∀ p ∈ splitChar '/' (normalizeRaw n), validSeg p = true := by
    intro p hp
    exact List.all_eq_true.1 hn p hp
  unfold clean_asset_name at h
  cases hms : modsStep resolve (splitChar '/' (normalizeRaw n)) with
  | none => rw [hms] at h; cases h
  | some ps' =>
    rw [hms] at h
    dsimp only at h
    cases h
    have hne' : ps' ≠ [] :=
      modsStep_some_ne_nil (splitChar_ne_nil '/' (normalizeRaw n)) hms
    have hv' := modsStep_some_valid hr hv hms
    have hmods' := modsStep_some_noMods hr hms
    exact clean_asset_name_fixpoint resolve (contentStep ps')
      (contentStep_ne_nil hne') (contentStep_valid hv')
      (contentStep_mods hmods') (contentStep_noContentHead ps')

/-- Witness for C3 at a concrete raw name. -/
theorem clean_asset_name_idempotent_witness :
    clean_asset_name resolveNone "/Game/PrimalEarth/Foo.Foo".toList
      = some "/Game/PrimalEarth/Foo".toList
    ∧ clean_asset_name resolveNone "/Game/PrimalEarth/Foo".toList
      = some "/Game/PrimalEarth/Foo".toList :=
  ⟨rfl,
   clean_asset_name_idempotent resolveNone "/Game/PrimalEarth/Foo.Foo".toList
     "/Game/PrimalEarth/Foo".toList (by decide)
     (fun i nm h => Option.noConfusion h) rfl⟩

end Purlovia
